import Mathlib

/-!
Shallow embedding of two tracing adapters of the dd-trace-go fragment:

* `Rueidis` — the Redis command tracing hook (`contrib/rueidis`): wraps each
  client operation so a span is started before the call and finished after,
  with size/resource/raw-command tags and error classification.
* `Grpcsec` — the gRPC security tag mapper: copies security events and
  normalized metadata headers onto a span as tags.

Go strings are modelled as `List Char` (Go byte slicing on the relevant
strings is character slicing here: all the literals involved are ASCII).
Go `error` values are `Option GoError` (`none` is the nil interface value);
the distinguished `rueidis.Nil` sentinel is the constructor
`GoError.redisNil`.  Span interaction is modelled by recording the exact
option lists passed to the tracing API as events.
-/

namespace DD

/-- Model of a Go string (a list of characters). -/
abbrev GoString := List Char

/-- A non-nil Go error value as seen by this layer: either the dedicated
`rueidis.Nil` "key not found" sentinel or any other error (identified by its
message). A possibly-nil Go `error` is `Option GoError`. -/
inductive GoError where
  | redisNil : GoError
  | other : String → GoError
deriving DecidableEq, Repr

/-- Model of `rueidis.IsRedisNil`: whether a (non-nil) error is the
"key not found" sentinel. -/
def IsRedisNil (e : GoError) : Bool :=
  e = GoError.redisNil

/-- The value carried by a span tag: a string, or a number (used for the
analytics rate, a Go float64 modelled as a rational). -/
inductive TagValue where
  | str : GoString → TagValue
  | num : ℚ → TagValue
deriving DecidableEq, Repr

/-- Model of a `ddtrace.StartSpanOption` as the datum it records on the
started span. -/
inductive SpanOption where
  | spanType : GoString → SpanOption
  | serviceName : GoString → SpanOption
  | resourceName : GoString → SpanOption
  | tag : GoString → TagValue → SpanOption
deriving DecidableEq, Repr

/-- Model of a `ddtrace.FinishOption`: `tracer.WithError(err)` recording the
error attached at finish (the Go argument may itself be the nil error). -/
inductive FinishOption where
  | withError : Option GoError → FinishOption
deriving DecidableEq, Repr

/-- One interaction with the tracing API: a span start with its option list,
or a span finish with its option list. -/
inductive TraceEvent where
  | startSpan : List SpanOption → TraceEvent
  | finishSpan : List FinishOption → TraceEvent
deriving DecidableEq, Repr

/-- Constants of the `ddtrace/ext` package used by the hook (values as in
dd-trace-go's `ddtrace/ext`; the claims do not depend on them). -/
def extSpanTypeRedis : GoString := "redis".toList

def extComponent : GoString := "component".toList

def extSpanKind : GoString := "span.kind".toList

def extSpanKindClient : GoString := "client".toList

def extDBSystem : GoString := "db.system".toList

def extDBSystemRedis : GoString := "redis".toList

def extEventSampleRate : GoString := "_dd1.sr.eausr".toList

/-- The key of a tag option, `none` for the non-tag options. -/
def tagKeyOf : SpanOption → Option GoString
  | SpanOption.tag k _ => some k
  | _ => none

/-- The value of the first tag named `k` in a start-option list. -/
def findTagValue (opts : List SpanOption) (k : GoString) : Option TagValue :=
  opts.findSome? (fun o =>
    match o with
    | SpanOption.tag key v => if key = k then some v else none
    | _ => none)

/-- Whether a start-option list carries a tag named `k`. -/
def hasTagKey (opts : List SpanOption) (k : GoString) : Bool :=
  opts.any (fun o => decide (tagKeyOf o = some k))

/-- The value of the tag named `k` in the first span start of a trace. -/
def traceStartTag (events : List TraceEvent) (k : GoString) : Option TagValue :=
  events.findSome? (fun e =>
    match e with
    | TraceEvent.startSpan opts => findTagValue opts k
    | TraceEvent.finishSpan _ => none)

/-- Whether some span start of the trace carries a tag named `k`. -/
def traceHasStartTag (events : List TraceEvent) (k : GoString) : Bool :=
  events.any (fun e =>
    match e with
    | TraceEvent.startSpan opts => hasTagKey opts k
    | TraceEvent.finishSpan _ => false)

/-- The number of span starts in a trace. -/
def countStarts (events : List TraceEvent) : Nat :=
  events.countP (fun e =>
    match e with
    | TraceEvent.startSpan _ => true
    | TraceEvent.finishSpan _ => false)

/-- The number of span finishes in a trace. -/
def countFinishes (events : List TraceEvent) : Nat :=
  events.countP (fun e =>
    match e with
    | TraceEvent.startSpan _ => false
    | TraceEvent.finishSpan _ => true)

/-- The finish-option lists of the span finishes of a trace, in order. -/
def traceFinishes (events : List TraceEvent) : List (List FinishOption) :=
  events.filterMap (fun e =>
    match e with
    | TraceEvent.startSpan _ => none
    | TraceEvent.finishSpan fo => some fo)

namespace Rueidis

/-- Model of `rueidishook.Completed`: a completed Redis command; `commands`
is the token list returned by its `Commands()` method. -/
structure Completed where
  commands : List GoString
deriving DecidableEq, Repr

/-- Model of `rueidis.Cacheable`: a cacheable Redis command with its
`Commands()` token list. -/
structure Cacheable where
  commands : List GoString
deriving DecidableEq, Repr

/-- Model of `rueidis.CacheableTTL`: a cacheable command paired with a TTL
(the TTL itself is irrelevant to the traced tags and is not modelled). -/
structure CacheableTTL where
  cmd : Cacheable
deriving DecidableEq, Repr

/-- Model of `rueidis.RedisResult` reduced to its `Error()` observation. -/
structure RedisResult where
  error : Option GoError
deriving DecidableEq, Repr

/-- Model of `clientConfig` (the configuration structure of the hook; its
option-parsing lives outside this fragment, so the final field values are
taken as given).  `analyticsRate` is a Go float64 tested with `math.IsNaN`;
it is modelled as `Option ℚ` with `none` standing for NaN. -/
structure clientConfig where
  serviceName : GoString
  skipRaw : Bool
  analyticsRate : Option ℚ
  errCheck : Option GoError → Bool

/-- Model of `params`: the per-hook immutable parameters. -/
structure params where
  config : clientConfig
  additionalTags : List SpanOption

/-- Go `strconv.Itoa`. -/
def Itoa (n : Nat) : GoString :=
  (toString n).toList

/-- Go `strings.Join(xs, ", ")`. -/
def joinComma (xs : List GoString) : GoString :=
  List.intercalate (", ".toList) xs

/-- Go `strings.Join(xs, " ")`. -/
def joinSpace (xs : List GoString) : GoString :=
  List.intercalate (" ".toList) xs

/-- Model of `additionalTagOptions(addrs)`: the Go loop
`for _, addr := range addrs { addrs = append(addrs, addr) }` ranges over a
snapshot of the original slice header while appending to `addrs`, so it
appends every original element once, leaving `addrs ++ addrs`; the single
option produced is the tag `"addrs"` with the comma-joined doubled list. -/
def additionalTagOptions (addrs : List GoString) : List SpanOption :=
  let addrs2 := List.foldl (fun acc addr => acc ++ [addr]) addrs addrs
  [SpanOption.tag ("addrs".toList) (TagValue.str (joinComma addrs2))]

/-- Model of `WrapClient`: builds the hook `params` from the final configuration and
the address list.  (`defaults` and the `ClientOption` functions live in
`option.go`, outside this fragment; the configuration they produce is the
`cfg` argument.) -/
def WrapClient (cfg : clientConfig) (addrs : List GoString) : params :=
  { config := cfg, additionalTags := additionalTagOptions addrs }

/-- Go `strings.IndexByte(op, ' ')`: the index of the first space character,
`-1` when there is none. -/
def IndexByteSpace : GoString → Int
  | [] => -1
  | c :: rest =>
      if c = ' ' then 0
      else
        let i := IndexByteSpace rest
        if i < 0 then -1 else i + 1

/-- Model of `resourceName(op)`: truncate at the first space when its index is
positive, otherwise the full string. -/
def resourceName (op : GoString) : GoString :=
  let spaceIndex := IndexByteSpace op
  if spaceIndex > 0 then op.take spaceIndex.toNat else op

/-- Model of `completedToStr`: per command, its tokens joined by spaces followed by
`":\n"`, accumulated in order into one string. -/
def completedToStr (cmds : List Completed) : GoString :=
  List.foldl (fun acc command => acc ++ (joinSpace command.commands ++ ":\n".toList)) [] cmds

/-- Model of `cacheableToStr`: same formatting for cacheable commands. -/
def cacheableToStr (cmds : List Cacheable) : GoString :=
  List.foldl (fun acc command => acc ++ (joinSpace command.commands ++ ":\n".toList)) [] cmds

/-- Model of `cacheableTtlToStr`: same formatting, reading tokens through `.Cmd`. -/
def cacheableTtlToStr (cmds : List CacheableTTL) : GoString :=
  List.foldl (fun acc command => acc ++ (joinSpace command.cmd.commands ++ ":\n".toList)) [] cmds

/-- Model of `firstError(s)`: the first result error that is non-nil and not the
redis-nil sentinel, scanning in order; `nil` if there is none. -/
def firstError (s : List RedisResult) : Option GoError :=
  match s with
  | [] => none
  | result :: rest =>
      match result.error with
      | some err => if IsRedisNil err then firstError rest else some err
      | none => firstError rest

/-- Model of `datadogHook.start`: the option list of the span started for operation
string `op` and size `size` (the capacity hint of the Go slice is
irrelevant).  The raw-command tag is appended only when `skipRaw` is unset,
then the additional tags, then the analytics-rate tag unless the rate is
NaN. -/
def hookStart (h : params) (op : GoString) (size : Nat) : List SpanOption :=
  let opts : List SpanOption := []
  let opts := opts ++
    [SpanOption.spanType extSpanTypeRedis,
     SpanOption.serviceName h.config.serviceName,
     SpanOption.resourceName (resourceName op),
     SpanOption.tag ("redis.args_length".toList) (TagValue.str (Itoa size)),
     SpanOption.tag extComponent (TagValue.str ("rueidis".toList)),
     SpanOption.tag extSpanKind (TagValue.str extSpanKindClient),
     SpanOption.tag extDBSystem (TagValue.str extDBSystemRedis)]
  let opts := if !h.config.skipRaw
    then opts ++ [SpanOption.tag ("redis.raw_command".toList) (TagValue.str op)]
    else opts
  let opts := opts ++ h.additionalTags
  let opts := match h.config.analyticsRate with
    | some rate => opts ++ [SpanOption.tag extEventSampleRate (TagValue.num rate)]
    | none => opts
  opts

/-- Model of `datadogHook.end`: the finish-option list. `tracer.WithError(errRedis)`
is appended exactly when `errRedis != rueidis.Nil` and the configured
`errCheck` predicate classifies it as an error; the span is then finished
with these options. -/
def hookEnd (h : params) (errRedis : Option GoError) : List FinishOption :=
  let finishOpts : List FinishOption := []
  let finishOpts :=
    if errRedis ≠ some GoError.redisNil ∧ h.config.errCheck errRedis = true
    then finishOpts ++ [FinishOption.withError errRedis]
    else finishOpts
  finishOpts

/-- Model of `datadogHook.Do`: start a span, run the wrapped call (whose result is
the external client's and is passed in as `resp`), finish the span with the
result's error.  Returns the untouched response and the trace events. -/
def Do (h : params) (cmd : Completed) (resp : RedisResult) :
    RedisResult × List TraceEvent :=
  let startEvent := TraceEvent.startSpan (hookStart h (completedToStr [cmd]) cmd.commands.length)
  let finishEvent := TraceEvent.finishSpan (hookEnd h resp.error)
  (resp, [startEvent, finishEvent])

/-- Model of `datadogHook.DoMulti`: batch variant; the size is the number of commands
and the finish error is `firstError` over the batch results. -/
def DoMulti (h : params) (multi : List Completed) (resps : List RedisResult) :
    List RedisResult × List TraceEvent :=
  let startEvent := TraceEvent.startSpan (hookStart h (completedToStr multi) multi.length)
  let finishEvent := TraceEvent.finishSpan (hookEnd h (firstError resps))
  (resps, [startEvent, finishEvent])

/-- Model of `datadogHook.DoCache`. -/
def DoCache (h : params) (cmd : Cacheable) (resp : RedisResult) :
    RedisResult × List TraceEvent :=
  let startEvent := TraceEvent.startSpan (hookStart h (cacheableToStr [cmd]) cmd.commands.length)
  let finishEvent := TraceEvent.finishSpan (hookEnd h resp.error)
  (resp, [startEvent, finishEvent])

/-- Model of `datadogHook.DoMultiCache`. -/
def DoMultiCache (h : params) (multi : List CacheableTTL) (resps : List RedisResult) :
    List RedisResult × List TraceEvent :=
  let startEvent := TraceEvent.startSpan (hookStart h (cacheableTtlToStr multi) multi.length)
  let finishEvent := TraceEvent.finishSpan (hookEnd h (firstError resps))
  (resps, [startEvent, finishEvent])

/-- Model of `datadogHook.Receive`: subscribe variant; the wrapped call returns a
bare error. -/
def Receive (h : params) (subscribe : Completed) (err : Option GoError) :
    Option GoError × List TraceEvent :=
  let startEvent := TraceEvent.startSpan (hookStart h (completedToStr [subscribe]) subscribe.commands.length)
  let finishEvent := TraceEvent.finishSpan (hookEnd h err)
  (err, [startEvent, finishEvent])

end Rueidis

namespace Grpcsec

/-- A pre-serialized security event (`json.RawMessage`), opaque here. -/
structure RawMessage where
  bytes : String
deriving DecidableEq, Repr

/-- The observable state of a span together with the process log: `tags`
records the `SetTag` calls in order, `logs` the emitted error-log lines. -/
structure SpanState where
  tags : List (GoString × GoString)
  logs : List String
deriving DecidableEq, Repr

/-- Modelled from the spec: `httpsec.NormalizeHTTPHeaders` (external to this
fragment) normalizes each header name per an external normalization rule
and serializes each header's value list into one string; it is modelled as
applying the abstract `normalize` and `serialize` functions entrywise to
the metadata map (a Go map modelled as an association list in iteration
order). -/
def NormalizeHTTPHeaders (normalize : GoString → GoString)
    (serialize : List GoString → GoString)
    (md : List (GoString × List GoString)) : List (GoString × GoString) :=
  md.map (fun kv => (normalize kv.1, serialize kv.2))

/-- Modelled from the spec: `instrumentation.SetEventSpanTags` (external to
this fragment) encodes the event collection into span tags with an
implementation-defined encoding and may fail; it is modelled as an abstract
function `applyEvents` from the event list to either an error message or
the encoded tag list. -/
def SetEventSpanTags (applyEvents : List RawMessage → Except String (List (GoString × GoString)))
    (events : List RawMessage) : Except String (List (GoString × GoString)) :=
  applyEvents events

/-- The lower-case `setSecurityEventTags`: apply the event-encoding step;
on its failure return the error (the span unchanged, the metadata loop
skipped); on success append the encoded event tags, then one
`"grpc.metadata."`-prefixed tag per normalized header. -/
def setSecurityEventTagsAux
    (applyEvents : List RawMessage → Except String (List (GoString × GoString)))
    (normalize : GoString → GoString) (serialize : List GoString → GoString)
    (span : SpanState) (events : List RawMessage)
    (md : List (GoString × List GoString)) : Except String SpanState :=
  match SetEventSpanTags applyEvents events with
  | Except.error e => Except.error e
  | Except.ok eventTags =>
      let span := { span with tags := span.tags ++ eventTags }
      let span := List.foldl
        (fun sp hv => { sp with tags := sp.tags ++ [("grpc.metadata.".toList ++ hv.1, hv.2)] })
        span (NormalizeHTTPHeaders normalize serialize md)
      Except.ok span

/-- The exported `SetSecurityEventTags`: call the fallible step and, when it
fails, log `"appsec: <err>"` and swallow the error; the caller always gets
back a plain span state, never an error. -/
def SetSecurityEventTags
    (applyEvents : List RawMessage → Except String (List (GoString × GoString)))
    (normalize : GoString → GoString) (serialize : List GoString → GoString)
    (span : SpanState) (events : List RawMessage)
    (md : List (GoString × List GoString)) : SpanState :=
  match setSecurityEventTagsAux applyEvents normalize serialize span events md with
  | Except.error e => { span with logs := span.logs ++ ["appsec: " ++ e] }
  | Except.ok span2 => span2

end Grpcsec

/-- A concrete hook configuration with raw-command redaction off, used to
evaluate the development on closed inputs.  Its error check treats every
non-nil error as an error. -/
def cfgPlain : Rueidis.clientConfig :=
  { serviceName := "redis".toList, skipRaw := false, analyticsRate := none,
    errCheck := fun e => e.isSome }

/-- A concrete hook configuration with raw-command redaction on. -/
def cfgRedacted : Rueidis.clientConfig :=
  { serviceName := "redis".toList, skipRaw := true, analyticsRate := none,
    errCheck := fun e => e.isSome }

/-! ## Helper lemmas -/

section Lemmas

open Rueidis

lemma foldl_append_chunks {α β : Type} (f : α → List β) (init : List β) (l : List α) :
    List.foldl (fun acc a => acc ++ f a) init l = init ++ (l.map f).flatten := by
  induction l generalizing init with
  | nil => simp
  | cons a t ih => simp [List.foldl, ih, List.append_assoc]

lemma foldl_append_singleton {α : Type} (init : List α) (l : List α) :
    List.foldl (fun acc a => acc ++ [a]) init l = init ++ l := by
  induction l generalizing init with
  | nil => simp
  | cons a t ih => simp [List.foldl, ih, List.append_assoc]

lemma completedToStr_eq_flatten (cmds : List Completed) :
    completedToStr cmds =
      (cmds.map (fun c => joinSpace c.commands ++ ":\n".toList)).flatten := by
  rw [completedToStr,
    foldl_append_chunks (fun command => joinSpace command.commands ++ ":\n".toList) [] cmds]
  simp

lemma suffix_colon_nl (cmds : List Completed) (hne : cmds ≠ []) :
    ":\n".toList <:+ completedToStr cmds := by
  rcases List.eq_nil_or_concat cmds with h | ⟨l, c, rfl⟩
  · exact absurd h hne
  · rw [completedToStr_eq_flatten, List.concat_eq_append, List.map_append,
      List.flatten_append]
    have h1 : ":\n".toList <:+ joinSpace c.commands ++ ":\n".toList :=
      List.suffix_append _ _
    have h2 : (List.map (fun c => joinSpace c.commands ++ ":\n".toList) [c]).flatten =
        joinSpace c.commands ++ ":\n".toList := by simp
    rw [h2]
    exact h1.trans (List.suffix_append _ _)

lemma takeWhile_of_neg (op : GoString) (h : IndexByteSpace op < 0) :
    op.takeWhile (fun c => c ≠ ' ') = op := by
  induction op with
  | nil => rfl
  | cons c t ih =>
      by_cases hc : c = ' '
      · simp [IndexByteSpace, hc] at h
      · simp only [IndexByteSpace, hc, if_false] at h
        by_cases ht : IndexByteSpace t < 0
        · rw [List.takeWhile_cons_of_pos (by simp [hc])]
          rw [ih ht]
        · rw [if_neg ht] at h
          omega

lemma take_toNat_of_nonneg (op : GoString) (h : 0 ≤ IndexByteSpace op) :
    op.take (IndexByteSpace op).toNat = op.takeWhile (fun c => c ≠ ' ') := by
  induction op with
  | nil => rfl
  | cons c t ih =>
      by_cases hc : c = ' '
      · simp [IndexByteSpace, hc, List.takeWhile_cons_of_neg, List.take]
      · by_cases ht : IndexByteSpace t < 0
        · exfalso
          simp only [IndexByteSpace, hc, if_false, if_pos ht] at h
          omega
        · push_neg at ht
          simp only [IndexByteSpace, hc, if_false, if_neg (not_lt.mpr ht)]
          have htn : (IndexByteSpace t + 1).toNat = (IndexByteSpace t).toNat + 1 := by
            omega
          rw [htn, List.take_succ_cons, ih ht,
            List.takeWhile_cons_of_pos (by simp [hc])]

lemma resourceName_spec (op : GoString) :
    resourceName op =
      if op.takeWhile (fun c => c ≠ ' ') = [] then op
      else op.takeWhile (fun c => c ≠ ' ') := by
  cases op with
  | nil => rfl
  | cons c t =>
      by_cases hc : c = ' '
      · have h1 : IndexByteSpace (c :: t) = 0 := by simp [IndexByteSpace, hc]
        have h2 : (c :: t).takeWhile (fun c => c ≠ ' ') = [] := by
          rw [List.takeWhile_cons_of_neg (by simp [hc])]
        rw [resourceName, h1, h2]
        simp
      · have h2 : (c :: t).takeWhile (fun c => c ≠ ' ') =
            c :: t.takeWhile (fun c => c ≠ ' ') := by
          rw [List.takeWhile_cons_of_pos (by simp [hc])]
        rw [resourceName, h2]
        by_cases ht : IndexByteSpace t < 0
        · have h1 : IndexByteSpace (c :: t) = -1 := by
            simp [IndexByteSpace, hc, if_pos ht]
          rw [h1]
          have h3 := takeWhile_of_neg t ht
          rw [if_neg (by norm_num), h3, if_neg (List.cons_ne_nil c t)]
        · push_neg at ht
          have h1 : IndexByteSpace (c :: t) = IndexByteSpace t + 1 := by
            simp [IndexByteSpace, hc, if_neg (not_lt.mpr ht)]
          rw [h1, if_pos (by omega)]
          have htn : (IndexByteSpace t + 1).toNat = (IndexByteSpace t).toNat + 1 := by
            omega
          rw [htn, List.take_succ_cons, take_toNat_of_nonneg t ht]
          simp

lemma takeWhile_eq_self_of_no_space (op : GoString) (h : ' ' ∉ op) :
    op.takeWhile (fun c => c ≠ ' ') = op := by
  induction op with
  | nil => rfl
  | cons c t ih =>
      rw [List.mem_cons, not_or] at h
      rw [List.takeWhile_cons_of_pos (by simp [Ne.symm h.1])]
      rw [ih h.2]

lemma resourceName_of_no_space (op : GoString) (h : ' ' ∉ op) :
    resourceName op = op := by
  rw [resourceName_spec, takeWhile_eq_self_of_no_space op h, ite_self]

lemma findTagValue_hookStart_raw (h : params) (op : GoString) (size : Nat)
    (hskip : h.config.skipRaw = false) :
    findTagValue (hookStart h op size) ("redis.raw_command".toList) =
      some (TagValue.str op) := by
  obtain ⟨⟨sn, sr, ar, ec⟩, atags⟩ := h
  subst hskip
  cases ar <;> rfl

lemma firstError_spec (s : List RedisResult) :
    firstError s =
      (s.filterMap (fun r => r.error.bind
        (fun e => if IsRedisNil e then none else some e))).head? := by
  induction s with
  | nil => rfl
  | cons r t ih =>
      cases he : r.error with
      | none => simp [firstError, he, List.filterMap_cons, ih]
      | some e =>
          by_cases hn : IsRedisNil e
          · simp [firstError, he, hn, List.filterMap_cons, ih]
          · simp [firstError, he, hn, List.filterMap_cons]

lemma foldl_metadata_tags (l : List (GoString × GoString)) (sp : Grpcsec.SpanState) :
    List.foldl
      (fun sp hv => { sp with tags := sp.tags ++ [("grpc.metadata.".toList ++ hv.1, hv.2)] })
      sp l =
    { sp with tags := sp.tags ++ l.map (fun hv => ("grpc.metadata.".toList ++ hv.1, hv.2)) } := by
  induction l generalizing sp with
  | nil => simp
  | cons a t ih =>
      rw [List.foldl_cons, ih]
      simp [List.append_assoc]

lemma setTags_of_error
    (applyEvents : List Grpcsec.RawMessage → Except String (List (GoString × GoString)))
    (normalize : GoString → GoString) (serialize : List GoString → GoString)
    (span : Grpcsec.SpanState) (events : List Grpcsec.RawMessage)
    (md : List (GoString × List GoString)) (e : String)
    (h : applyEvents events = Except.error e) :
    Grpcsec.SetSecurityEventTags applyEvents normalize serialize span events md =
      { span with logs := span.logs ++ ["appsec: " ++ e] } := by
  rw [Grpcsec.SetSecurityEventTags, Grpcsec.setSecurityEventTagsAux,
    Grpcsec.SetEventSpanTags, h]

lemma setTags_of_ok
    (applyEvents : List Grpcsec.RawMessage → Except String (List (GoString × GoString)))
    (normalize : GoString → GoString) (serialize : List GoString → GoString)
    (span : Grpcsec.SpanState) (events : List Grpcsec.RawMessage)
    (md : List (GoString × List GoString)) (ts : List (GoString × GoString))
    (h : applyEvents events = Except.ok ts) :
    Grpcsec.SetSecurityEventTags applyEvents normalize serialize span events md =
      { span with tags :=
          (span.tags ++ ts ++
            md.map (fun kv => ("grpc.metadata.".toList ++ normalize kv.1, serialize kv.2))) } := by
  rw [Grpcsec.SetSecurityEventTags, Grpcsec.setSecurityEventTagsAux,
    Grpcsec.SetEventSpanTags, h]
  dsimp only
  rw [foldl_metadata_tags]
  simp [Grpcsec.NormalizeHTTPHeaders, List.map_map, Function.comp, List.append_assoc]

end Lemmas

/-! ## Claims -/

section Claims

open Rueidis

/-- C1: counterexample — a single-command invocation (`Do`) of the two-token
command `GET key` sets the `"redis.args_length"` tag to `"2"`, not to `1` as
the claim states for every single-command invocation. -/
theorem c1_single_command_counterexample :
    traceStartTag
        (Do (WrapClient cfgPlain []) ⟨["GET".toList, "key".toList]⟩ ⟨none⟩).2
        ("redis.args_length".toList) =
      some (TagValue.str ("2".toList)) ∧
    traceStartTag
        (Do (WrapClient cfgPlain []) ⟨["GET".toList, "key".toList]⟩ ⟨none⟩).2
        ("redis.args_length".toList) ≠
      some (TagValue.str ("1".toList)) := by
  exact ⟨rfl, by decide⟩

/-- C1 (amended): for every invocation of the hook, the `"redis.args_length"`
tag set at span start is the decimal string of: the token count of the
command (`len(cmd.Commands())`) for the single-command methods `Do`,
`DoCache` and `Receive`, and the number N of commands in the batch for
`DoMulti` and `DoMultiCache`. -/
theorem c1_args_length (h : params) (cmd : Completed) (resp : RedisResult)
    (multi : List Completed) (resps : List RedisResult)
    (ccmd : Cacheable) (cresp : RedisResult) (cmulti : List CacheableTTL)
    (cresps : List RedisResult) (sub : Completed) (err : Option GoError) :
    traceStartTag (Do h cmd resp).2 ("redis.args_length".toList) =
      some (TagValue.str (Itoa cmd.commands.length)) ∧
    traceStartTag (DoMulti h multi resps).2 ("redis.args_length".toList) =
      some (TagValue.str (Itoa multi.length)) ∧
    traceStartTag (DoCache h ccmd cresp).2 ("redis.args_length".toList) =
      some (TagValue.str (Itoa ccmd.commands.length)) ∧
    traceStartTag (DoMultiCache h cmulti cresps).2 ("redis.args_length".toList) =
      some (TagValue.str (Itoa cmulti.length)) ∧
    traceStartTag (Receive h sub err).2 ("redis.args_length".toList) =
      some (TagValue.str (Itoa sub.commands.length)) := by
  obtain ⟨⟨sn, sr, ar, ec⟩, atags⟩ := h
  cases sr <;> cases ar <;> exact ⟨rfl, rfl, rfl, rfl, rfl⟩

/-- C2: the finish step attaches `WithError` exactly when the error is not
the `rueidis.Nil` sentinel and the configured predicate classifies it as an
error (so the sentinel suppresses failure even when the predicate would mark
it); when it does, the attached error is that error; and the span is always
finished, exactly once, with exactly the options computed by the finish
step. -/
theorem c2_finish_error_classification (h : params) (e : Option GoError)
    (cmd : Completed) (resp : RedisResult) :
    (hookEnd h e ≠ [] ↔ (e ≠ some GoError.redisNil ∧ h.config.errCheck e = true)) ∧
    (hookEnd h e = [] ∨ hookEnd h e = [FinishOption.withError e]) ∧
    traceFinishes (Do h cmd resp).2 = [hookEnd h resp.error] := by
  refine ⟨?_, ?_, rfl⟩
  · rw [hookEnd]
    by_cases hc : e ≠ some GoError.redisNil ∧ h.config.errCheck e = true
    · simp [hc]
    · simp [hc]
  · rw [hookEnd]
    by_cases hc : e ≠ some GoError.redisNil ∧ h.config.errCheck e = true
    · simp [hc]
    · simp [hc]

/-- C3: counterexample — the operation string `" x"` contains a space and the
substring before its first space is empty, yet `resourceName` returns the
full string `" x"`, not that substring, because the code only truncates at a
space with positive index. -/
theorem c3_leading_space_counterexample :
    ' ' ∈ " x".toList ∧
    (" x".toList).takeWhile (fun c => c ≠ ' ') = [] ∧
    resourceName (" x".toList) = " x".toList ∧
    resourceName (" x".toList) ≠ (" x".toList).takeWhile (fun c => c ≠ ' ') := by
  exact ⟨by decide, rfl, rfl, by decide⟩

/-- C3 (amended): the resource name is the substring of the operation string
before its first space when that substring is non-empty (in particular
whenever the first space sits at a positive index); otherwise — no space at
all, or a space as the very first character — the resource name is the full
operation string. -/
theorem c3_resource_name (op : GoString) :
    resourceName op =
      if op.takeWhile (fun c => c ≠ ' ') = [] then op
      else op.takeWhile (fun c => c ≠ ' ') :=
  resourceName_spec op

/-- C4: `firstError` returns the first result error, scanning in order, with
redis-nil sentinel errors skipped as if absent, and `none` when no result
carries a non-sentinel error; on the 3-command scenario with a sentinel
first and a real error second it reports the second error; and `DoMulti`
finishes its span with exactly the finish options computed from that
error. -/
theorem c4_first_error_scan (s : List RedisResult) (h : params)
    (multi : List Completed) :
    firstError s =
      (s.filterMap (fun r => r.error.bind
        (fun e => if IsRedisNil e then none else some e))).head? ∧
    firstError
        [⟨some GoError.redisNil⟩, ⟨some (GoError.other "boom")⟩, ⟨none⟩] =
      some (GoError.other "boom") ∧
    traceFinishes (DoMulti h multi s).2 = [hookEnd h (firstError s)] :=
  ⟨firstError_spec s, rfl, rfl⟩

/-- C5: every call through any of the five hook methods produces exactly one
span start and exactly one span finish, whatever the wrapped call returns
(success, classified error, or unclassified error). -/
theorem c5_span_start_finish_pairing (h : params) (cmd : Completed)
    (resp : RedisResult) (multi : List Completed) (resps : List RedisResult)
    (ccmd : Cacheable) (cresp : RedisResult) (cmulti : List CacheableTTL)
    (cresps : List RedisResult) (sub : Completed) (err : Option GoError) :
    (countStarts (Do h cmd resp).2 = 1 ∧ countFinishes (Do h cmd resp).2 = 1) ∧
    (countStarts (DoMulti h multi resps).2 = 1 ∧
      countFinishes (DoMulti h multi resps).2 = 1) ∧
    (countStarts (DoCache h ccmd cresp).2 = 1 ∧
      countFinishes (DoCache h ccmd cresp).2 = 1) ∧
    (countStarts (DoMultiCache h cmulti cresps).2 = 1 ∧
      countFinishes (DoMultiCache h cmulti cresps).2 = 1) ∧
    (countStarts (Receive h sub err).2 = 1 ∧
      countFinishes (Receive h sub err).2 = 1) :=
  ⟨⟨rfl, rfl⟩, ⟨rfl, rfl⟩, ⟨rfl, rfl⟩, ⟨rfl, rfl⟩, ⟨rfl, rfl⟩⟩

/-- C6: `SetSecurityEventTags` never surfaces an error to the caller: when
the internal event-encoding step fails the only effect is one appended
`"appsec:"` log line (the span's tags are untouched), and when it succeeds
nothing is logged. -/
theorem c6_mapper_swallows_errors
    (applyEvents : List Grpcsec.RawMessage → Except String (List (GoString × GoString)))
    (normalize : GoString → GoString) (serialize : List GoString → GoString)
    (span : Grpcsec.SpanState) (events : List Grpcsec.RawMessage)
    (md : List (GoString × List GoString)) :
    (∀ e, applyEvents events = Except.error e →
      Grpcsec.SetSecurityEventTags applyEvents normalize serialize span events md =
        { span with logs := span.logs ++ ["appsec: " ++ e] }) ∧
    (∀ ts, applyEvents events = Except.ok ts →
      (Grpcsec.SetSecurityEventTags applyEvents normalize serialize span events md).logs =
        span.logs) := by
  constructor
  · intro e he
    exact setTags_of_error applyEvents normalize serialize span events md e he
  · intro ts hts
    rw [setTags_of_ok applyEvents normalize serialize span events md ts hts]

/-- C6: witness — with an encoding step that always fails, the mapper
returns the span with exactly one new log line and no error. -/
theorem c6_mapper_swallows_errors_witness :
    Grpcsec.SetSecurityEventTags (fun _ => Except.error "encode failure")
        (fun k => k) (fun vs => vs.flatten) ⟨[], []⟩ [] [] =
      ⟨[], ["appsec: " ++ "encode failure"]⟩ :=
  (c6_mapper_swallows_errors (fun _ => Except.error "encode failure")
    (fun k => k) (fun vs => vs.flatten) ⟨[], []⟩ [] []).1 "encode failure" rfl

/-- C7: counterexample — when the event-encoding step fails, the metadata
loop is skipped entirely, so an input map with one key yields no
`"grpc.metadata."` span tag at all, contradicting the claim that every key
always yields exactly one tag. -/
theorem c7_encode_failure_counterexample :
    (Grpcsec.SetSecurityEventTags (fun _ => Except.error "enc") (fun k => k)
        (fun vs => vs.flatten) ⟨[], []⟩ [] [("k".toList, ["v".toList])]).tags = [] ∧
    [("k".toList, ["v".toList])].length = 1 :=
  ⟨rfl, rfl⟩

/-- C7 (amended): provided the event-encoding step succeeds, every key of
the input metadata map yields exactly one span tag, named by prefixing
`"grpc.metadata."` to the normalized header name with the serialized value
list as value, in input order with no extra and no missing headers; when
the encoding step fails, no metadata tag is set. -/
theorem c7_metadata_tags
    (applyEvents : List Grpcsec.RawMessage → Except String (List (GoString × GoString)))
    (normalize : GoString → GoString) (serialize : List GoString → GoString)
    (span : Grpcsec.SpanState) (events : List Grpcsec.RawMessage)
    (md : List (GoString × List GoString)) :
    (∀ ts, applyEvents events = Except.ok ts →
      (Grpcsec.SetSecurityEventTags applyEvents normalize serialize span events md).tags =
        span.tags ++ ts ++
          md.map (fun kv => ("grpc.metadata.".toList ++ normalize kv.1, serialize kv.2))) ∧
    (∀ e, applyEvents events = Except.error e →
      (Grpcsec.SetSecurityEventTags applyEvents normalize serialize span events md).tags =
        span.tags) := by
  constructor
  · intro ts hts
    rw [setTags_of_ok applyEvents normalize serialize span events md ts hts]
  · intro e he
    rw [setTags_of_error applyEvents normalize serialize span events md e he]

/-- C7: witness — with a successful encoding step and one metadata entry,
exactly one namespaced metadata tag is produced. -/
theorem c7_metadata_tags_witness :
    (Grpcsec.SetSecurityEventTags (fun _ => Except.ok []) (fun k => k)
        (fun vs => vs.flatten) ⟨[], []⟩ []
        [("k".toList, ["v".toList])]).tags =
      [] ++ [] ++
        [("k".toList, ["v".toList])].map
          (fun kv => ("grpc.metadata.".toList ++ kv.1, kv.2.flatten)) :=
  (c7_metadata_tags (fun _ => Except.ok []) (fun k => k) (fun vs => vs.flatten)
    ⟨[], []⟩ [] [("k".toList, ["v".toList])]).1 [] rfl

/-- C8: a hook built by `WrapClient` with raw-command redaction enabled
(`skipRaw`) starts spans that carry no `"redis.raw_command"` tag, through
every one of the five hook methods and for every operation content. -/
theorem c8_raw_command_redaction (cfg : clientConfig) (addrs : List GoString)
    (cmd : Completed) (resp : RedisResult) (multi : List Completed)
    (resps : List RedisResult) (ccmd : Cacheable) (cresp : RedisResult)
    (cmulti : List CacheableTTL) (cresps : List RedisResult)
    (sub : Completed) (err : Option GoError)
    (hskip : cfg.skipRaw = true) :
    traceHasStartTag (Do (WrapClient cfg addrs) cmd resp).2
        ("redis.raw_command".toList) = false ∧
    traceHasStartTag (DoMulti (WrapClient cfg addrs) multi resps).2
        ("redis.raw_command".toList) = false ∧
    traceHasStartTag (DoCache (WrapClient cfg addrs) ccmd cresp).2
        ("redis.raw_command".toList) = false ∧
    traceHasStartTag (DoMultiCache (WrapClient cfg addrs) cmulti cresps).2
        ("redis.raw_command".toList) = false ∧
    traceHasStartTag (Receive (WrapClient cfg addrs) sub err).2
        ("redis.raw_command".toList) = false := by
  obtain ⟨sn, sr, ar, ec⟩ := cfg
  subst hskip
  cases ar <;> exact ⟨rfl, rfl, rfl, rfl, rfl⟩

/-- C8: witness — a redacted hook run on a concrete command starts a span
without a raw-command tag. -/
theorem c8_raw_command_redaction_witness :
    traceHasStartTag (Do (WrapClient cfgRedacted []) ⟨["GET".toList]⟩ ⟨none⟩).2
        ("redis.raw_command".toList) = false ∧
    traceHasStartTag (DoMulti (WrapClient cfgRedacted []) [] []).2
        ("redis.raw_command".toList) = false ∧
    traceHasStartTag (DoCache (WrapClient cfgRedacted []) ⟨["GET".toList]⟩ ⟨none⟩).2
        ("redis.raw_command".toList) = false ∧
    traceHasStartTag (DoMultiCache (WrapClient cfgRedacted []) [] []).2
        ("redis.raw_command".toList) = false ∧
    traceHasStartTag (Receive (WrapClient cfgRedacted []) ⟨["SUBSCRIBE".toList]⟩ none).2
        ("redis.raw_command".toList) = false :=
  c8_raw_command_redaction cfgRedacted [] ⟨["GET".toList]⟩ ⟨none⟩ [] []
    ⟨["GET".toList]⟩ ⟨none⟩ [] [] ⟨["SUBSCRIBE".toList]⟩ none rfl

/-- C9: the `"addrs"` tag built by `additionalTagOptions` (and installed by
`WrapClient`) joins, with `", "`, the input address list concatenated with
itself — every address appears twice, in order — and is the empty string
for the empty list. -/
theorem c9_addrs_tag_doubled (cfg : clientConfig) (addrs : List GoString) :
    (WrapClient cfg addrs).additionalTags = additionalTagOptions addrs ∧
    additionalTagOptions addrs =
      [SpanOption.tag ("addrs".toList)
        (TagValue.str (joinComma (addrs ++ addrs)))] ∧
    additionalTagOptions [] =
      [SpanOption.tag ("addrs".toList) (TagValue.str [])] := by
  refine ⟨rfl, ?_, rfl⟩
  rw [additionalTagOptions]
  rw [foldl_append_singleton]

/-- C10: counterexample — for the single one-token command whose token is
`"a b"` (a token may contain a space), the resource name of its operation
string is `"a"`, which does not end in `":\n"`; the claim's parenthetical
about resource names of one-token commands fails there. -/
theorem c10_resource_name_counterexample :
    resourceName (completedToStr [⟨["a b".toList]⟩]) = "a".toList ∧
    ¬ (":\n".toList <:+ resourceName (completedToStr [⟨["a b".toList]⟩])) := by
  exact ⟨by decide, by decide⟩

/-- C10 (amended): for every non-empty command list the operation string is
the concatenation, per command, of the command's tokens joined by single
spaces followed by `":\n"` — the separator follows every command including
the last, so the operation string always ends in `":\n"`; the raw-command
tag (when redaction is off) is exactly the operation string; and the
resource name of a single one-token command whose token contains no space
also ends in `":\n"`. -/
theorem c10_operation_string (cmds : List Completed) (hne : cmds ≠ [])
    (t : GoString) (ht : ' ' ∉ t) (h : params) (op : GoString) (size : Nat)
    (hskip : h.config.skipRaw = false) :
    completedToStr cmds =
      (cmds.map (fun c => joinSpace c.commands ++ ":\n".toList)).flatten ∧
    ":\n".toList <:+ completedToStr cmds ∧
    ":\n".toList <:+ resourceName (completedToStr [⟨[t]⟩]) ∧
    findTagValue (hookStart h op size) ("redis.raw_command".toList) =
      some (TagValue.str op) := by
  refine ⟨completedToStr_eq_flatten cmds, suffix_colon_nl cmds hne, ?_,
    findTagValue_hookStart_raw h op size hskip⟩
  have he : completedToStr [⟨[t]⟩] = t ++ ":\n".toList := by
    rw [completedToStr_eq_flatten]
    simp [joinSpace, List.intercalate]
  have hn : ' ' ∉ t ++ ":\n".toList := by
    intro hmem
    rcases List.mem_append.mp hmem with h1 | h1
    · exact ht h1
    · revert h1
      decide
  rw [he, resourceName_of_no_space _ hn]
  exact List.suffix_append _ _

/-- C10: witness — on a concrete batch and a concrete space-free token the
amended statement evaluates as stated. -/
theorem c10_operation_string_witness :
    completedToStr [Completed.mk ["SET".toList, "k".toList]] =
      ([Completed.mk ["SET".toList, "k".toList]].map
        (fun c => joinSpace c.commands ++ ":\n".toList)).flatten ∧
    ":\n".toList <:+ completedToStr [Completed.mk ["SET".toList, "k".toList]] ∧
    ":\n".toList <:+ resourceName (completedToStr [⟨["PING".toList]⟩]) ∧
    findTagValue (hookStart (WrapClient cfgPlain []) ("x".toList) 1)
        ("redis.raw_command".toList) =
      some (TagValue.str ("x".toList)) :=
  c10_operation_string [Completed.mk ["SET".toList, "k".toList]] (by decide)
    ("PING".toList) (by decide) (WrapClient cfgPlain []) ("x".toList) 1 rfl

end Claims

end DD
